import Mathlib

/-!
Verification of the deadlock-detector simulation (src/main.py).

The Python program simulates processes (`Processo`) competing for exclusive
resources (`Recurso`) under one global lock, and a periodic detector
(`SistemaOperacional.detectar_deadlock`) that rebuilds the wait-for graph and
reports its simple cycles.  The definitions below are a shallow embedding of
that code: the shared allocation state becomes an explicit `SimState`, the
mutation sites of `solicitar_recurso` / `liberar_recurso_agendado` become
functions on that state, and the `networkx` calls (`DiGraph`, `simple_cycles`)
become an explicit graph representation with an executable enumeration of all
simple cycles.  Configured delays (Python floats) are modelled as rationals.
-/

/-- Constant `MAX_RECURSOS` (main.py line 12). -/
def MAX_RECURSOS : Nat := 10

/-- Constant `MAX_PROCESSOS` (main.py line 13). -/
def MAX_PROCESSOS : Nat := 10

/-- Record `Recurso` (main.py lines 39-48): numeric id, display name, and
`dono`, the owner.  Python stores a reference to the owning `Processo`;
process ids are unique, so the owner is modelled by its `p_id`
(`none` when the resource is free). -/
structure Recurso where
  id : Nat
  nome : String
  dono : Option Nat
deriving DecidableEq

/-- Record part of `Processo` (main.py lines 50-63): process id, the
configured request interval `delta_ts` and hold duration `delta_tu`, the
held-resource list `recursos_posse` (Python keeps `Recurso` objects; resource
ids are unique, so the ids are kept) and `recurso_aguardando`, the id of the
resource the process is blocked on (`none` when it is not waiting). -/
structure Processo where
  p_id : Nat
  delta_ts : ℚ
  delta_tu : ℚ
  recursos_posse : List Nat
  recurso_aguardando : Option Nat
deriving DecidableEq

/-- The shared allocation state: the process list and the resource list that
`SistemaOperacional` and every `Processo` thread share under `global_lock`. -/
structure SimState where
  processos : List Processo
  recursos : List Recurso
deriving DecidableEq

/-- The candidate list of `Processo.run` (main.py line 72): the resources of
the system that the process does not currently hold. -/
def disponiveis_para_pedir (p : Processo) (recursos_sistema : List Recurso) : List Recurso :=
  recursos_sistema.filter (fun r => decide (r.id ∉ p.recursos_posse))

/-- Outcome of one pass through the guard of `solicitar_recurso`: either the
resource was free and the process took it (lines 94-97), or the resource was
owned and the process recorded itself as waiting and suspended (lines 87-92).
`invalid` covers out-of-range indices (no such objects exist in Python). -/
inductive SolicitarOutcome where
  | acquired (s : SimState)
  | blocked (s : SimState)
  | invalid (s : SimState)
deriving DecidableEq

/-- `Processo.solicitar_recurso` (main.py lines 82-98) for process `i` and
resource `j` of the state: with the lock held, if `recurso.dono` is `none` the
process takes ownership (`dono := p_id`), clears `recurso_aguardando` and
appends the resource to `recursos_posse`; otherwise it sets
`recurso_aguardando` and blocks on the resource's condition variable. -/
def solicitar_recurso (s : SimState) (i j : Nat) : SolicitarOutcome :=
  match s.processos[i]?, s.recursos[j]? with
  | some p, some r =>
    if r.dono = none then
      SolicitarOutcome.acquired
        { processos := s.processos.set i
            { p with recurso_aguardando := none, recursos_posse := p.recursos_posse ++ [r.id] }
          recursos := s.recursos.set j { r with dono := some p.p_id } }
    else
      SolicitarOutcome.blocked
        { s with processos := s.processos.set i { p with recurso_aguardando := some r.id } }
  | _, _ => SolicitarOutcome.invalid s

/-- `Processo.liberar_recurso_agendado` (main.py lines 106-115) for process
`i` and resource `j`: if the resource is in the process's held list, clear
`dono`, remove the resource from `recursos_posse` (Python `list.remove`, the
first occurrence) and `notify_all` the resource's condition variable;
otherwise do nothing.  The second component is the list of process ids the
`notify_all` wakes: the threads waiting on `recurso.condicao` are exactly the
ones suspended at line 92, which hold `recurso_aguardando = recurso`
(set at line 88). -/
def liberar_recurso_agendado (s : SimState) (i j : Nat) : SimState × List Nat :=
  match s.processos[i]?, s.recursos[j]? with
  | some p, some r =>
    if r.id ∈ p.recursos_posse then
      ({ processos := s.processos.set i
           { p with recursos_posse := p.recursos_posse.erase r.id }
         recursos := s.recursos.set j { r with dono := none } },
       (s.processos.filter (fun q => decide (q.recurso_aguardando = some r.id))).map Processo.p_id)
    else (s, [])
  | _, _ => (s, [])

/-- One tick of `Processo.run` (main.py lines 65-80) for process `i`: build
`disponiveis_para_pedir`; if it is empty, `continue` (no-op); otherwise pick
one of its elements (`random.choice`, modelled by the arbitrary index
`k % length`) and call `solicitar_recurso` on it. -/
def run_tick (s : SimState) (i k : Nat) : SimState :=
  match s.processos[i]? with
  | none => s
  | some p =>
    let disp := disponiveis_para_pedir p s.recursos
    match disp[k % disp.length]? with
    | none => s
    | some r =>
      match solicitar_recurso s i (List.indexOf r s.recursos) with
      | SolicitarOutcome.acquired t => t
      | SolicitarOutcome.blocked t => t
      | SolicitarOutcome.invalid t => t

/-- One transition of the shared state under `global_lock`: an acquisition
commit, a block (whose resource always comes from the `disponiveis_para_pedir`
selection of `Processo.run`, the only caller of `solicitar_recurso`), or a
scheduled release. -/
inductive Step : SimState → SimState → Prop where
  | acquire (s : SimState) (i j : Nat) (t : SimState)
      (h : solicitar_recurso s i j = SolicitarOutcome.acquired t) : Step s t
  | block (s : SimState) (i j : Nat) (t : SimState) (p : Processo) (r : Recurso)
      (hp : s.processos[i]? = some p) (hr : s.recursos[j]? = some r)
      (hsel : r ∈ disponiveis_para_pedir p s.recursos)
      (h : solicitar_recurso s i j = SolicitarOutcome.blocked t) : Step s t
  | release (s : SimState) (i j : Nat) : Step s (liberar_recurso_agendado s i j).1

/-- States reachable from `init` by `Step` transitions. -/
inductive Reachable (init : SimState) : SimState → Prop where
  | refl : Reachable init init
  | step (s t : SimState) (h1 : Reachable init s) (h2 : Step s t) : Reachable init t

/-- A state as `App.start_simulation` (main.py lines 299-320) creates it:
fresh processes (empty `recursos_posse`, no `recurso_aguardando`), free
resources (`dono = none`), and the distinct sequential ids the configuration
tab assigns (lines 280, 293). -/
def InitOk (s : SimState) : Prop :=
  (s.processos.map Processo.p_id).Nodup ∧
  (s.recursos.map Recurso.id).Nodup ∧
  (∀ p ∈ s.processos, p.recursos_posse = [] ∧ p.recurso_aguardando = none) ∧
  (∀ r ∈ s.recursos, r.dono = none)

instance instDecidableInitOk (s : SimState) : Decidable (InitOk s) :=
  inferInstanceAs (Decidable (_ ∧ _ ∧ _ ∧ _))

/-- Bidirectional ownership consistency: a resource's `dono` names a process
exactly when the resource's id is in that process's `recursos_posse`. -/
def OwnershipConsistent (s : SimState) : Prop :=
  ∀ j (hj : j < s.recursos.length) i (hi : i < s.processos.length),
    (s.recursos[j].dono = some (s.processos[i]).p_id ↔
      (s.recursos[j]).id ∈ (s.processos[i]).recursos_posse)

/-- The inductive invariant of the allocation state: distinct process ids,
distinct resource ids, duplicate-free held lists, and `OwnershipConsistent`. -/
def StateInv (s : SimState) : Prop :=
  (s.processos.map Processo.p_id).Nodup ∧
  (s.recursos.map Recurso.id).Nodup ∧
  (∀ p ∈ s.processos, p.recursos_posse.Nodup) ∧
  OwnershipConsistent s

/-- A node of the detector's graph: Python uses the strings `"P{id}"` and
`"R{id}"` (main.py lines 139, 141). -/
inductive Node where
  | P (id : Nat)
  | R (id : Nat)
deriving DecidableEq

/-- `node.startswith("P")` (main.py line 160). -/
def Node.isP : Node → Bool
  | Node.P _ => true
  | Node.R _ => false

/-- An injective key on nodes, used only to pick one canonical starting point
per cycle (as `networkx` reports each simple cycle once, with an unspecified
starting node). -/
def nodeKey : Node → Nat
  | Node.P i => 2 * i
  | Node.R i => 2 * i + 1

/-- First-insertion-order de-duplication, as `networkx` node insertion and
Python set iteration behave. -/
def insertionDedup {α : Type} [DecidableEq α] (l : List α) : List α :=
  l.foldl (fun acc x => if x ∈ acc then acc else acc ++ [x]) []

/-- The edge relation of an edge list. -/
def edgeRel (edges : List (Node × Node)) (a b : Node) : Prop :=
  (a, b) ∈ edges

instance instDecidableEdgeRel (edges : List (Node × Node)) : DecidableRel (edgeRel edges) :=
  fun a b => inferInstanceAs (Decidable ((a, b) ∈ edges))

/-- `c` lists the nodes of a closed directed walk: consecutive nodes are
related by `r`, and so are the last and the first. -/
def IsCycleChain {α : Type} (r : α → α → Prop) : List α → Prop
  | [] => False
  | a :: l => List.Chain r a (l ++ [a])

/-- A kernel-reducible decision procedure for `List.Chain`. -/
def decChain {α : Type} {r : α → α → Prop} (d : (a b : α) → Decidable (r a b)) :
    (a : α) → (l : List α) → Decidable (List.Chain r a l)
  | _, [] => isTrue List.Chain.nil
  | a, b :: l =>
    @decidable_of_iff _ _ List.chain_cons.symm (@instDecidableAnd _ _ (d a b) (decChain d b l))

/-- A kernel-reducible decision procedure for `List.Nodup`. -/
def decNodup {α : Type} [DecidableEq α] : (l : List α) → Decidable (List.Nodup l)
  | [] => isTrue List.nodup_nil
  | a :: l =>
    @decidable_of_iff _ _ List.nodup_cons.symm
      (@instDecidableAnd _ _ (@instDecidableNot _ (inferInstanceAs (Decidable (a ∈ l)))) (decNodup l))

instance instDecidableIsCycleChain {α : Type} (r : α → α → Prop) [DecidableRel r] :
    (c : List α) → Decidable (IsCycleChain r c)
  | [] => isFalse (fun h => h)
  | a :: l => decChain (fun x y => inferInstanceAs (Decidable (r x y))) a (l ++ [a])

/-- A simple cycle of the graph with edge list `edges`: a nonempty closed
walk that visits no node twice.  This is the notion `nx.simple_cycles`
enumerates (main.py line 153). -/
def IsSimpleCycle (edges : List (Node × Node)) (c : List Node) : Prop :=
  c ≠ [] ∧ c.Nodup ∧ IsCycleChain (edgeRel edges) c

/-- A kernel-reducible decision procedure for `c ≠ []`. -/
def decNeNil {α : Type} : (c : List α) → Decidable (c ≠ ([] : List α))
  | [] => isFalse (fun h => h rfl)
  | a :: l => isTrue (List.cons_ne_nil a l)

instance instDecidableIsSimpleCycle (edges : List (Node × Node)) (c : List Node) :
    Decidable (IsSimpleCycle edges c) :=
  @instDecidableAnd _ _ (decNeNil c)
    (@instDecidableAnd _ _ (decNodup c) (instDecidableIsCycleChain (edgeRel edges) c))

/-- The canonical representative of a cycle: its `nodeKey`-least node first. -/
def minFirst : List Node → Prop
  | [] => False
  | x :: xs => ∀ y ∈ xs, nodeKey x ≤ nodeKey y

/-- A kernel-reducible decision procedure for the key bound of `minFirst`. -/
def decKeyLe (x : Node) : (xs : List Node) → Decidable (∀ y ∈ xs, nodeKey x ≤ nodeKey y)
  | [] => isTrue (fun y hy => absurd hy (List.not_mem_nil y))
  | z :: zs =>
    @decidable_of_iff _ _ List.forall_mem_cons.symm
      (@instDecidableAnd _ _ (Nat.decLe (nodeKey x) (nodeKey z)) (decKeyLe x zs))

instance instDecidableMinFirst : (c : List Node) → Decidable (minFirst c)
  | [] => isFalse (fun h => h)
  | x :: xs => decKeyLe x xs

/-- Executable embedding of `nx.simple_cycles` (main.py line 153): every
simple cycle of the graph, each one listed exactly once, starting at its
`nodeKey`-least node.  Candidates are all duplicate-free arrangements of
subsets of the node list. -/
def simple_cycles (nodes : List Node) (edges : List (Node × Node)) : List (List Node) :=
  (nodes.sublists.flatMap List.permutations').filter
    (fun c => decide (IsSimpleCycle edges c) && decide (minFirst c))

/-- The detector's report (main.py lines 164-168): the graph (node and edge
lists), the cycle list, and the processes appearing in some cycle. -/
structure DetectResult where
  graph_nodes : List Node
  graph_edges : List (Node × Node)
  cycles : List (List Node)
  in_deadlock : List Node
deriving DecidableEq

/-- `SistemaOperacional.detectar_deadlock` (main.py lines 133-168): add a
`P` node per process and an `R` node per resource; add an edge
`R r -> P (r.dono)` for every owned resource and an edge
`P p -> R (p.recurso_aguardando)` for every waiting process; enumerate the
simple cycles; collect the `P` nodes of the cycles as `in_deadlock`.
(`nx.add_edge` inserts missing endpoints as nodes, hence the de-duplicated
node list below; Python set iteration is modelled as first-insertion order.) -/
def detectar_deadlock (processos : List Processo) (recursos : List Recurso) : DetectResult :=
  let declared : List Node :=
    processos.map (fun p => Node.P p.p_id) ++ recursos.map (fun r => Node.R r.id)
  let own_edges : List (Node × Node) :=
    recursos.filterMap (fun r => r.dono.map (fun pid => (Node.R r.id, Node.P pid)))
  let wait_edges : List (Node × Node) :=
    processos.filterMap (fun p => p.recurso_aguardando.map (fun rid => (Node.P p.p_id, Node.R rid)))
  let edges := own_edges ++ wait_edges
  let nodes := insertionDedup (declared ++ edges.flatMap (fun e => [e.1, e.2]))
  let cycles := simple_cycles nodes edges
  { graph_nodes := nodes
    graph_edges := edges
    cycles := cycles
    in_deadlock := insertionDedup ((cycles.flatMap id).filter Node.isP) }

/-- Outcome surfaced by a configuration action of `App`: `ok`, the
capacity-limit warning dialog, the invalid-number error dialog, the
silently-ignored empty resource name, or the missing-configuration error of
`start_simulation`. -/
inductive ConfigOutcome where
  | ok
  | limitError
  | valueError
  | emptyName
  | emptyConfig
deriving DecidableEq

/-- One queued process configuration (main.py line 294). -/
structure ProcessoConfig where
  id : Nat
  ts : ℚ
  tu : ℚ
deriving DecidableEq

/-- The configuration-relevant state of `App` (main.py lines 179-182):
the resource list, the queued process configurations, the started process
threads, and whether the `SistemaOperacional` thread was started. -/
structure AppState where
  recursos : List Recurso
  temp_process_configs : List ProcessoConfig
  processos : List Processo
  so_started : Bool
deriving DecidableEq

/-- `App.add_recurso` (main.py lines 274-284): warn and do nothing at the
capacity limit; silently ignore an empty name; otherwise append a fresh free
resource with the next sequential id. -/
def add_recurso (s : AppState) (nome : String) : AppState × ConfigOutcome :=
  if s.recursos.length ≥ MAX_RECURSOS then (s, ConfigOutcome.limitError)
  else if nome = "" then (s, ConfigOutcome.emptyName)
  else
    ({ s with recursos := s.recursos ++ [{ id := s.recursos.length + 1, nome := nome, dono := none }] },
     ConfigOutcome.ok)

/-- `App.add_processo_config` (main.py lines 286-297): warn and do nothing at
the capacity limit; show an error if either entry does not parse as a number
(`ts`/`tu` are `none` on a Python `float()` `ValueError`); otherwise append
the configuration with the next sequential id.  The parsed values are not
validated further: any parsed number, positive or not, is accepted. -/
def add_processo_config (s : AppState) (ts tu : Option ℚ) : AppState × ConfigOutcome :=
  if s.temp_process_configs.length ≥ MAX_PROCESSOS then (s, ConfigOutcome.limitError)
  else
    match ts, tu with
    | some a, some b =>
      ({ s with temp_process_configs :=
          s.temp_process_configs ++
            [{ id := s.temp_process_configs.length + 1, ts := a, tu := b }] },
       ConfigOutcome.ok)
    | _, _ => (s, ConfigOutcome.valueError)

/-- `App.start_simulation` (main.py lines 299-320): refuse when the resource
list or the queued process list is empty, or when the detector interval does
not parse; otherwise create one fresh `Processo` per queued configuration and
start every thread. -/
def start_simulation (s : AppState) (dt : Option ℚ) : AppState × ConfigOutcome :=
  if s.recursos = [] ∨ s.temp_process_configs = [] then (s, ConfigOutcome.emptyConfig)
  else
    match dt with
    | none => (s, ConfigOutcome.valueError)
    | some _ =>
      ({ s with
          processos := s.processos ++ s.temp_process_configs.map
            (fun c => { p_id := c.id, delta_ts := c.ts, delta_tu := c.tu,
                        recursos_posse := [], recurso_aguardando := none })
          so_started := true },
       ConfigOutcome.ok)

/-- The two-process circular-wait scenario of the specification: P1 holds
resource 1 (A) and waits for resource 2 (B); P2 holds B and waits for A. -/
def cenario_deadlock : SimState :=
  { processos :=
      [{ p_id := 1, delta_ts := 1, delta_tu := 1, recursos_posse := [1], recurso_aguardando := some 2 },
       { p_id := 2, delta_ts := 1, delta_tu := 1, recursos_posse := [2], recurso_aguardando := some 1 }]
    recursos :=
      [{ id := 1, nome := "A", dono := some 1 },
       { id := 2, nome := "B", dono := some 2 }] }

/-- The no-false-positive scenario of the specification: P1 holds resource 1
(A) and waits for nothing; P2 holds resource 2 (B) and waits for A. -/
def cenario_sem_deadlock : SimState :=
  { processos :=
      [{ p_id := 1, delta_ts := 1, delta_tu := 1, recursos_posse := [1], recurso_aguardando := none },
       { p_id := 2, delta_ts := 1, delta_tu := 1, recursos_posse := [2], recurso_aguardando := some 1 }]
    recursos :=
      [{ id := 1, nome := "A", dono := some 1 },
       { id := 2, nome := "B", dono := some 2 }] }

/-! ## General lemmas about the cycle enumeration -/

/-- In a chain starting at `a`, every listed element other than the last one
has an `r`-successor. -/
theorem chain_last_or_succ {α : Type} {r : α → α → Prop} :
    ∀ (l : List α) (a x : α), List.Chain r a l → x ∈ a :: l →
      x = (a :: l).getLast (List.cons_ne_nil a l) ∨ ∃ y, r x y := by
  intro l
  induction l with
  | nil =>
    intro a x _ hx
    left
    simpa using (List.mem_singleton.mp hx)
  | cons b bs ih =>
    intro a x hch hx
    obtain ⟨hab, hch2⟩ := List.chain_cons.mp hch
    rcases List.mem_cons.mp hx with hxa | hx2
    · exact Or.inr ⟨b, hxa ▸ hab⟩
    · rcases ih b x hch2 hx2 with hlast | hsucc
      · left
        rw [List.getLast_cons (List.cons_ne_nil b bs)]
        exact hlast
      · exact Or.inr hsucc

/-- A nonempty chain gives its head an `r`-successor. -/
theorem chain_head_succ {α : Type} {r : α → α → Prop} {a : α} {m : List α}
    (h : List.Chain r a m) (hm : m ≠ []) : ∃ y, r a y := by
  cases m with
  | nil => exact absurd rfl hm
  | cons b bs => exact ⟨b, (List.chain_cons.mp h).1⟩

/-- Every node on a closed walk has an outgoing `r`-edge. -/
theorem cycle_mem_exists_succ {α : Type} {r : α → α → Prop} {c : List α}
    (hc : IsCycleChain r c) {x : α} (hx : x ∈ c) : ∃ y, r x y := by
  cases c with
  | nil => exact hc.elim
  | cons a l =>
    have hch : List.Chain r a (l ++ [a]) := hc
    have hx2 : x ∈ a :: (l ++ [a]) := by
      rcases List.mem_cons.mp hx with hxa | hxl
      · exact hxa ▸ List.mem_cons_self a (l ++ [a])
      · exact List.mem_cons_of_mem a (List.mem_append_left [a] hxl)
    rcases chain_last_or_succ (l ++ [a]) a x hch hx2 with hlast | hsucc
    · have hgl : (a :: (l ++ [a])).getLast (List.cons_ne_nil a (l ++ [a])) = a :=
        List.getLast_concat (a :: l)
      have hxa : x = a := hlast.trans hgl
      subst hxa
      exact chain_head_succ hch (by simp)
    · exact hsucc

/-- The closed-walk property is invariant under rotation. -/
theorem isCycleChain_of_isRotated {α : Type} {r : α → α → Prop} {c c2 : List α}
    (h : c.IsRotated c2) (hc : IsCycleChain r c) : IsCycleChain r c2 := by
  cases c with
  | nil => exact hc.elim
  | cons a l =>
    cases c2 with
    | nil =>
      have : (a :: l).length = ([] : List α).length := h.perm.length_eq
      simp at this
    | cons b m =>
      have h1 : Cycle.Chain r (↑(a :: l) : Cycle α) := (Cycle.chain_coe_cons r a l).mpr hc
      have hq : (↑(a :: l) : Cycle α) = (↑(b :: m) : Cycle α) := Cycle.coe_eq_coe.mpr h
      exact (Cycle.chain_coe_cons r b m).mp (hq ▸ h1)

/-- Everything `simple_cycles` returns is a simple cycle in canonical form. -/
theorem mem_simple_cycles_sound {nodes : List Node} {edges : List (Node × Node)}
    {c : List Node} (h : c ∈ simple_cycles nodes edges) :
    IsSimpleCycle edges c ∧ minFirst c := by
  have h2 := List.mem_filter.mp h
  have h3 := h2.2
  rw [Bool.and_eq_true, decide_eq_true_eq, decide_eq_true_eq] at h3
  exact h3

/-- Completeness of `simple_cycles`: every simple cycle whose nodes are among
`nodes` appears in the output, as its canonical rotation. -/
theorem exists_rotation_mem_simple_cycles {nodes : List Node} {edges : List (Node × Node)}
    {c : List Node} (hc : IsSimpleCycle edges c) (hsub : ∀ x ∈ c, x ∈ nodes) :
    ∃ c2 ∈ simple_cycles nodes edges, c.IsRotated c2 := by
  obtain ⟨hne, hnd, hch⟩ := hc
  cases hargmin : List.argmin nodeKey c with
  | none => exact absurd (List.argmin_eq_none.mp hargmin) hne
  | some m =>
    have hm_opt : m ∈ List.argmin nodeKey c := Option.mem_def.mpr hargmin
    have hmem : m ∈ c := List.argmin_mem hm_opt
    have hle : ∀ y ∈ c, nodeKey m ≤ nodeKey y := fun y hy => List.le_of_mem_argmin hy hm_opt
    have hi : List.indexOf m c < c.length := List.indexOf_lt_length.mpr hmem
    refine ⟨c.rotate (List.indexOf m c), ?_, ⟨List.indexOf m c, rfl⟩⟩
    have hrot : c.IsRotated (c.rotate (List.indexOf m c)) := ⟨List.indexOf m c, rfl⟩
    have hlen : (c.rotate (List.indexOf m c)).length = c.length := List.length_rotate c _
    have hne2 : c.rotate (List.indexOf m c) ≠ [] := by
      intro hnil
      apply hne
      rw [← List.length_eq_zero, ← hlen, hnil]
      rfl
    have hnd2 : (c.rotate (List.indexOf m c)).Nodup := List.nodup_rotate.mpr hnd
    have hch2 : IsCycleChain (edgeRel edges) (c.rotate (List.indexOf m c)) :=
      isCycleChain_of_isRotated hrot hch
    have hhead : (c.rotate (List.indexOf m c)).head? = some m := by
      rw [List.head?_rotate hi, List.getElem?_eq_getElem hi, List.getElem_indexOf hi]
    have hminf : minFirst (c.rotate (List.indexOf m c)) := by
      cases hc2 : c.rotate (List.indexOf m c) with
      | nil => exact absurd hc2 hne2
      | cons x xs =>
        have hx : x = m := by
          rw [hc2] at hhead
          simpa using hhead
        intro y hy
        have hyc : y ∈ c.rotate (List.indexOf m c) := by
          rw [hc2]
          exact List.mem_cons_of_mem x hy
        rw [hx]
        exact hle y (List.mem_rotate.mp hyc)
    have hsub2 : c.rotate (List.indexOf m c) ⊆ nodes := by
      intro y hy
      exact hsub y (List.mem_rotate.mp hy)
    obtain ⟨l, hperm, hsl⟩ := hnd2.subperm hsub2
    refine List.mem_filter.mpr ⟨?_, ?_⟩
    · exact List.mem_flatMap.mpr
        ⟨l, List.mem_sublists.mpr hsl, List.mem_permutations'.mpr hperm.symm⟩
    · rw [Bool.and_eq_true, decide_eq_true_eq, decide_eq_true_eq]
      exact ⟨⟨hne2, hnd2, hch2⟩, hminf⟩

/-! ## The deadlock and no-false-positive scenarios (claims C1, C2) -/

/-- C1: on the circular-wait state (P1 holds A and waits for B, P2 holds B
and waits for A) `detectar_deadlock` reports exactly one cycle: the reported
cycle list is one cycle through P1, R2, P2, R1, that cycle contains both P1
and P2, the deadlocked set holds exactly P1 and P2, and every simple cycle of
the snapshot graph is a rotation of the one reported cycle. -/
theorem detectar_deadlock_unique_cycle :
    (detectar_deadlock cenario_deadlock.processos cenario_deadlock.recursos).cycles
        = [[Node.P 1, Node.R 2, Node.P 2, Node.R 1]] ∧
    Node.P 1 ∈ [Node.P 1, Node.R 2, Node.P 2, Node.R 1] ∧
    Node.P 2 ∈ [Node.P 1, Node.R 2, Node.P 2, Node.R 1] ∧
    (∀ x, x ∈ (detectar_deadlock cenario_deadlock.processos cenario_deadlock.recursos).in_deadlock
        ↔ (x = Node.P 1 ∨ x = Node.P 2)) ∧
    (∀ c, IsSimpleCycle
        (detectar_deadlock cenario_deadlock.processos cenario_deadlock.recursos).graph_edges c →
      c.IsRotated [Node.P 1, Node.R 2, Node.P 2, Node.R 1]) := by
  refine ⟨by decide, by decide, by decide, ?_, ?_⟩
  · intro x
    have hl : (detectar_deadlock cenario_deadlock.processos cenario_deadlock.recursos).in_deadlock
        = [Node.P 1, Node.P 2] := by decide
    rw [hl]
    simp
  · intro c hc
    have hedge : ∀ e ∈ (detectar_deadlock cenario_deadlock.processos cenario_deadlock.recursos).graph_edges,
        e.1 ∈ (detectar_deadlock cenario_deadlock.processos cenario_deadlock.recursos).graph_nodes := by
      decide
    have hsub : ∀ x ∈ c,
        x ∈ (detectar_deadlock cenario_deadlock.processos cenario_deadlock.recursos).graph_nodes := by
      intro x hx
      obtain ⟨y, hy⟩ := cycle_mem_exists_succ hc.2.2 hx
      exact hedge (x, y) hy
    obtain ⟨c2, hc2, hrot⟩ := exists_rotation_mem_simple_cycles hc hsub
    have hcyc : simple_cycles
        (detectar_deadlock cenario_deadlock.processos cenario_deadlock.recursos).graph_nodes
        (detectar_deadlock cenario_deadlock.processos cenario_deadlock.recursos).graph_edges
        = [[Node.P 1, Node.R 2, Node.P 2, Node.R 1]] := by decide
    rw [hcyc, List.mem_singleton] at hc2
    rw [← hc2]
    exact hrot

/-- C2: on the state where P1 holds A and waits for nothing while P2 holds B
and waits for A, `detectar_deadlock` reports no cycle at all (the reported
cycle list is empty, and indeed the snapshot graph has no simple cycle) and
an empty deadlocked set, even though P2 is blocked
(`recurso_aguardando = some 1`). -/
theorem detectar_deadlock_no_false_positive :
    (detectar_deadlock cenario_sem_deadlock.processos cenario_sem_deadlock.recursos).cycles = [] ∧
    (detectar_deadlock cenario_sem_deadlock.processos cenario_sem_deadlock.recursos).in_deadlock = [] ∧
    (∃ p ∈ cenario_sem_deadlock.processos, p.p_id = 2 ∧ p.recurso_aguardando = some 1) ∧
    (∀ c, ¬ IsSimpleCycle
        (detectar_deadlock cenario_sem_deadlock.processos cenario_sem_deadlock.recursos).graph_edges c) := by
  refine ⟨by decide, by decide, by decide, ?_⟩
  intro c hc
  have hedge : ∀ e ∈ (detectar_deadlock cenario_sem_deadlock.processos cenario_sem_deadlock.recursos).graph_edges,
      e.1 ∈ (detectar_deadlock cenario_sem_deadlock.processos cenario_sem_deadlock.recursos).graph_nodes := by
    decide
  have hsub : ∀ x ∈ c,
      x ∈ (detectar_deadlock cenario_sem_deadlock.processos cenario_sem_deadlock.recursos).graph_nodes := by
    intro x hx
    obtain ⟨y, hy⟩ := cycle_mem_exists_succ hc.2.2 hx
    exact hedge (x, y) hy
  obtain ⟨c2, hc2, _⟩ := exists_rotation_mem_simple_cycles hc hsub
  have hcyc : simple_cycles
      (detectar_deadlock cenario_sem_deadlock.processos cenario_sem_deadlock.recursos).graph_nodes
      (detectar_deadlock cenario_sem_deadlock.processos cenario_sem_deadlock.recursos).graph_edges
      = [] := by decide
  rw [hcyc] at hc2
  exact List.not_mem_nil c2 hc2

/-! ## Configuration-boundary claims (C7, C8) -/

/-- C7 counterexample: a process configuration with a negative request
interval is accepted without any error (`add_processo_config` answers `ok` and
appends it), and `start_simulation` then starts the simulation with it: no
`ConfigurationError` is surfaced for a non-positive interval or duration. -/
theorem add_processo_config_accepts_nonpositive :
    (add_processo_config
        { recursos := [{ id := 1, nome := "A", dono := none }],
          temp_process_configs := [], processos := [], so_started := false }
        (some (-1)) (some 1)).2 = ConfigOutcome.ok ∧
    (start_simulation
        (add_processo_config
          { recursos := [{ id := 1, nome := "A", dono := none }],
            temp_process_configs := [], processos := [], so_started := false }
          (some (-1)) (some 1)).1 (some 1)).2 = ConfigOutcome.ok ∧
    (start_simulation
        (add_processo_config
          { recursos := [{ id := 1, nome := "A", dono := none }],
            temp_process_configs := [], processos := [], so_started := false }
          (some (-1)) (some 1)).1 (some 1)).1.so_started = true := by
  refine ⟨rfl, ?_, ?_⟩ <;> rfl

/-- C7 (amended): an empty resource list or an empty queued-process list makes
`start_simulation` surface the configuration error and leave the state
unchanged (no process is created, the system thread is not started); but
non-positive intervals and durations are not validated: below the capacity
cap, `add_processo_config` accepts any parsed numeric values, whatever their
sign. -/
theorem start_simulation_empty_config_error (s : AppState) (dt : Option ℚ) (ts tu : ℚ) :
    ((s.recursos = [] ∨ s.temp_process_configs = []) →
      start_simulation s dt = (s, ConfigOutcome.emptyConfig)) ∧
    (s.temp_process_configs.length < MAX_PROCESSOS →
      (add_processo_config s (some ts) (some tu)).2 = ConfigOutcome.ok) := by
  constructor
  · intro h
    simp [start_simulation, h]
  · intro h
    have hn : ¬ (s.temp_process_configs.length ≥ MAX_PROCESSOS) := by omega
    simp [add_processo_config, hn]

/-- C8: at the capacity limit of 10 entries, an attempt to add an 11th
resource or an 11th process configuration answers the limit warning and
changes nothing; the two configuration lists can never grow beyond 10
entries; and neither add operation touches the started processes or the
system-thread flag. -/
theorem capacity_bound (s : AppState) (nome : String) (ts tu : Option ℚ) :
    (s.recursos.length = MAX_RECURSOS →
      add_recurso s nome = (s, ConfigOutcome.limitError)) ∧
    (s.temp_process_configs.length = MAX_PROCESSOS →
      add_processo_config s ts tu = (s, ConfigOutcome.limitError)) ∧
    (s.recursos.length ≤ MAX_RECURSOS →
      (add_recurso s nome).1.recursos.length ≤ MAX_RECURSOS) ∧
    (s.temp_process_configs.length ≤ MAX_PROCESSOS →
      (add_processo_config s ts tu).1.temp_process_configs.length ≤ MAX_PROCESSOS) ∧
    (add_recurso s nome).1.processos = s.processos ∧
    (add_recurso s nome).1.so_started = s.so_started ∧
    (add_processo_config s ts tu).1.processos = s.processos ∧
    (add_processo_config s ts tu).1.so_started = s.so_started := by
  refine ⟨?_, ?_, ?_, ?_, ?_, ?_, ?_, ?_⟩
  · intro h
    simp [add_recurso, h]
  · intro h
    simp [add_processo_config, h]
  · intro h
    unfold add_recurso
    split_ifs with h1 h2 <;> simp_all
    omega
  · intro h
    unfold add_processo_config
    split_ifs with h1
    · simpa using h
    · cases ts with
      | none => simpa using h
      | some a =>
        cases tu with
        | none => simpa using h
        | some b =>
          simp
          omega
  · unfold add_recurso
    split_ifs <;> rfl
  · unfold add_recurso
    split_ifs <;> rfl
  · unfold add_processo_config
    split_ifs
    · rfl
    · cases ts with
      | none => rfl
      | some a => cases tu with
        | none => rfl
        | some b => rfl
  · unfold add_processo_config
    split_ifs
    · rfl
    · cases ts with
      | none => rfl
      | some a => cases tu with
        | none => rfl
        | some b => rfl

/-! ## Acquire and release (claims C4, C5, C10) -/

/-- C4: acquiring a free resource succeeds immediately: when `dono` is
`none`, `solicitar_recurso` answers `acquired` with the post-state in which
the resource's owner is the acquiring process, the process waits on nothing,
and the resource id is appended to its held list; and the call answers
`acquired` exactly when the resource is currently unowned. -/
theorem solicitar_recurso_livre (s : SimState) (i j : Nat) (p : Processo) (r : Recurso)
    (hp : s.processos[i]? = some p) (hr : s.recursos[j]? = some r) :
    (r.dono = none →
      solicitar_recurso s i j = SolicitarOutcome.acquired
        { processos := s.processos.set i
            { p with recurso_aguardando := none, recursos_posse := p.recursos_posse ++ [r.id] }
          recursos := s.recursos.set j { r with dono := some p.p_id } } ∧
      (s.recursos.set j { r with dono := some p.p_id })[j]?
        = some { r with dono := some p.p_id } ∧
      (s.processos.set i
          { p with recurso_aguardando := none, recursos_posse := p.recursos_posse ++ [r.id] })[i]?
        = some { p with recurso_aguardando := none, recursos_posse := p.recursos_posse ++ [r.id] } ∧
      r.id ∈ p.recursos_posse ++ [r.id]) ∧
    ((∃ t, solicitar_recurso s i j = SolicitarOutcome.acquired t) ↔ r.dono = none) := by
  have hi : i < s.processos.length := (List.getElem?_eq_some.mp hp).1
  have hj : j < s.recursos.length := (List.getElem?_eq_some.mp hr).1
  constructor
  · intro hd
    refine ⟨by simp [solicitar_recurso, hp, hr, hd],
      List.getElem?_set_self hj, List.getElem?_set_self hi, by simp⟩
  · constructor
    · rintro ⟨t, ht⟩
      by_contra hd
      simp [solicitar_recurso, hp, hr, hd] at ht
    · intro hd
      exact ⟨{ processos := s.processos.set i
                 { p with recurso_aguardando := none,
                          recursos_posse := p.recursos_posse ++ [r.id] }
               recursos := s.recursos.set j { r with dono := some p.p_id } },
        by simp [solicitar_recurso, hp, hr, hd]⟩

/-- C4 witness: a single fresh process acquires the single free resource. -/
theorem solicitar_recurso_livre_witness :
    ∃ t, solicitar_recurso
        { processos := [{ p_id := 1, delta_ts := 1, delta_tu := 1,
                          recursos_posse := [], recurso_aguardando := none }],
          recursos := [{ id := 1, nome := "A", dono := none }] } 0 0
      = SolicitarOutcome.acquired t :=
  ((solicitar_recurso_livre
      { processos := [{ p_id := 1, delta_ts := 1, delta_tu := 1,
                        recursos_posse := [], recurso_aguardando := none }],
        recursos := [{ id := 1, nome := "A", dono := none }] } 0 0
      { p_id := 1, delta_ts := 1, delta_tu := 1,
        recursos_posse := [], recurso_aguardando := none }
      { id := 1, nome := "A", dono := none } rfl rfl).2).mpr rfl

/-- C5: releasing a held resource clears its owner to `none`, removes it from
the releasing process's held list (entirely, when that list has no
duplicates), and the `notify_all` broadcast wakes exactly the processes whose
`recurso_aguardando` is the released resource: in particular every process
currently waiting on it is woken, not just one. -/
theorem liberar_recurso_agendado_release (s : SimState) (i j : Nat) (p : Processo) (r : Recurso)
    (hp : s.processos[i]? = some p) (hr : s.recursos[j]? = some r)
    (hheld : r.id ∈ p.recursos_posse) :
    (liberar_recurso_agendado s i j).1.recursos[j]? = some { r with dono := none } ∧
    (liberar_recurso_agendado s i j).1.processos[i]?
      = some { p with recursos_posse := p.recursos_posse.erase r.id } ∧
    (p.recursos_posse.Nodup → r.id ∉ p.recursos_posse.erase r.id) ∧
    (liberar_recurso_agendado s i j).2
      = (s.processos.filter (fun q => decide (q.recurso_aguardando = some r.id))).map Processo.p_id ∧
    (∀ q ∈ s.processos, q.recurso_aguardando = some r.id →
      q.p_id ∈ (liberar_recurso_agendado s i j).2) := by
  have hi : i < s.processos.length := (List.getElem?_eq_some.mp hp).1
  have hj : j < s.recursos.length := (List.getElem?_eq_some.mp hr).1
  have hfst : (liberar_recurso_agendado s i j).1
      = { processos := s.processos.set i
            { p with recursos_posse := p.recursos_posse.erase r.id }
          recursos := s.recursos.set j { r with dono := none } } := by
    simp [liberar_recurso_agendado, hp, hr, hheld]
  have hsnd : (liberar_recurso_agendado s i j).2
      = (s.processos.filter (fun q => decide (q.recurso_aguardando = some r.id))).map Processo.p_id := by
    simp [liberar_recurso_agendado, hp, hr, hheld]
  refine ⟨?_, ?_, ?_, hsnd, ?_⟩
  · rw [hfst]
    exact List.getElem?_set_self hj
  · rw [hfst]
    exact List.getElem?_set_self hi
  · intro hnd hmem
    exact absurd rfl (hnd.mem_erase_iff.mp hmem).1
  · intro q hq hwait
    rw [hsnd]
    exact List.mem_map.mpr ⟨q, List.mem_filter.mpr ⟨hq, by simp [hwait]⟩, rfl⟩

/-- C5 witness: releasing the one held resource frees it and wakes the one
waiting process. -/
theorem liberar_recurso_agendado_release_witness :
    (liberar_recurso_agendado
        { processos := [{ p_id := 1, delta_ts := 1, delta_tu := 1,
                          recursos_posse := [1], recurso_aguardando := none },
                        { p_id := 2, delta_ts := 1, delta_tu := 1,
                          recursos_posse := [], recurso_aguardando := some 1 }],
          recursos := [{ id := 1, nome := "A", dono := some 1 }] } 0 0).1.recursos[0]?
      = some { id := 1, nome := "A", dono := none } :=
  (liberar_recurso_agendado_release
      { processos := [{ p_id := 1, delta_ts := 1, delta_tu := 1,
                        recursos_posse := [1], recurso_aguardando := none },
                      { p_id := 2, delta_ts := 1, delta_tu := 1,
                        recursos_posse := [], recurso_aguardando := some 1 }],
        recursos := [{ id := 1, nome := "A", dono := some 1 }] } 0 0
      { p_id := 1, delta_ts := 1, delta_tu := 1,
        recursos_posse := [1], recurso_aguardando := none }
      { id := 1, nome := "A", dono := some 1 } rfl rfl (by decide)).1

/-- C10: a scheduled release whose resource is not in the invoking process's
held list is a no-op: the whole state is returned unchanged (owners, held
lists and waiting pointers untouched) and no process is woken. -/
theorem liberar_recurso_agendado_no_op (s : SimState) (i j : Nat) (p : Processo) (r : Recurso)
    (hp : s.processos[i]? = some p) (hr : s.recursos[j]? = some r)
    (hnot : r.id ∉ p.recursos_posse) :
    liberar_recurso_agendado s i j = (s, []) := by
  simp [liberar_recurso_agendado, hp, hr, hnot]

/-- C10 witness: releasing an unheld resource changes nothing. -/
theorem liberar_recurso_agendado_no_op_witness :
    liberar_recurso_agendado
        { processos := [{ p_id := 1, delta_ts := 1, delta_tu := 1,
                          recursos_posse := [], recurso_aguardando := none }],
          recursos := [{ id := 1, nome := "A", dono := none }] } 0 0
      = ({ processos := [{ p_id := 1, delta_ts := 1, delta_tu := 1,
                           recursos_posse := [], recurso_aguardando := none }],
           recursos := [{ id := 1, nome := "A", dono := none }] }, []) :=
  liberar_recurso_agendado_no_op
      { processos := [{ p_id := 1, delta_ts := 1, delta_tu := 1,
                        recursos_posse := [], recurso_aguardando := none }],
        recursos := [{ id := 1, nome := "A", dono := none }] } 0 0
      { p_id := 1, delta_ts := 1, delta_tu := 1,
        recursos_posse := [], recurso_aguardando := none }
      { id := 1, nome := "A", dono := none } rfl rfl (by decide)

/-! ## Inversion and update helpers for the state transitions -/

/-- Writing back the element already at a position leaves a list unchanged. -/
theorem set_getElem_self_eq {α : Type} :
    ∀ (l : List α) (i : Nat) (h : i < l.length), l.set i l[i] = l := by
  intro l
  induction l with
  | nil => intro i h; exact absurd h (by simp)
  | cons a t ih =>
    intro i h
    cases i with
    | zero => rfl
    | succ n =>
      have h2 : n < t.length := by simpa using h
      show a :: t.set n (a :: t)[n + 1] = a :: t
      rw [List.getElem_cons_succ, ih n h2]

/-- What `solicitar_recurso` answering `acquired` says about its input and
output. -/
theorem solicitar_recurso_acquired_inv {s t : SimState} {i j : Nat}
    (h : solicitar_recurso s i j = SolicitarOutcome.acquired t) :
    ∃ p r, s.processos[i]? = some p ∧ s.recursos[j]? = some r ∧ r.dono = none ∧
      t = { processos := s.processos.set i
              { p with recurso_aguardando := none,
                       recursos_posse := p.recursos_posse ++ [r.id] }
            recursos := s.recursos.set j { r with dono := some p.p_id } } := by
  unfold solicitar_recurso at h
  cases hp : s.processos[i]? with
  | none => rw [hp] at h; simp at h
  | some p =>
    cases hr : s.recursos[j]? with
    | none => rw [hp, hr] at h; simp at h
    | some r =>
      rw [hp, hr] at h
      simp only [] at h
      by_cases hd : r.dono = none
      · rw [if_pos hd] at h
        refine ⟨p, r, rfl, rfl, hd, ?_⟩
        cases h
        rfl
      · rw [if_neg hd] at h
        simp at h

/-- What `solicitar_recurso` answering `blocked` says about its input and
output. -/
theorem solicitar_recurso_blocked_inv {s t : SimState} {i j : Nat}
    (h : solicitar_recurso s i j = SolicitarOutcome.blocked t) :
    ∃ p r, s.processos[i]? = some p ∧ s.recursos[j]? = some r ∧ r.dono ≠ none ∧
      t = { s with processos :=
              s.processos.set i { p with recurso_aguardando := some r.id } } := by
  unfold solicitar_recurso at h
  cases hp : s.processos[i]? with
  | none => rw [hp] at h; simp at h
  | some p =>
    cases hr : s.recursos[j]? with
    | none => rw [hp, hr] at h; simp at h
    | some r =>
      rw [hp, hr] at h
      simp only [] at h
      by_cases hd : r.dono = none
      · rw [if_pos hd] at h
        simp at h
      · rw [if_neg hd] at h
        refine ⟨p, r, rfl, rfl, hd, ?_⟩
        cases h
        rfl

/-- The two possible shapes of the state after a scheduled release: the
no-op, or the release proper. -/
theorem liberar_recurso_agendado_fst_cases (s : SimState) (i j : Nat) :
    (liberar_recurso_agendado s i j).1 = s ∨
    ∃ p r, s.processos[i]? = some p ∧ s.recursos[j]? = some r ∧ r.id ∈ p.recursos_posse ∧
      (liberar_recurso_agendado s i j).1
        = { processos := s.processos.set i
              { p with recursos_posse := p.recursos_posse.erase r.id }
            recursos := s.recursos.set j { r with dono := none } } := by
  unfold liberar_recurso_agendado
  cases hp : s.processos[i]? with
  | none => left; rfl
  | some p =>
    cases hr : s.recursos[j]? with
    | none => left; rfl
    | some r =>
      simp only []
      by_cases hheld : r.id ∈ p.recursos_posse
      · right
        exact ⟨p, r, rfl, rfl, hheld, by rw [if_pos hheld]⟩
      · left
        rw [if_neg hheld]

/-- If the images under `f` are duplicate-free, entries at distinct positions
have distinct images. -/
theorem map_nodup_getElem_ne {α β : Type} (f : α → β) (l : List α) (h : (l.map f).Nodup)
    (i1 i2 : Nat) (h1 : i1 < l.length) (h2 : i2 < l.length) (hne : i1 ≠ i2) :
    f l[i1] ≠ f l[i2] := by
  intro heq
  apply hne
  have hm1 : i1 < (l.map f).length := by simpa using h1
  have hm2 : i2 < (l.map f).length := by simpa using h2
  have hm : (l.map f)[i1] = (l.map f)[i2] := by
    rw [@List.getElem_map _ _ f l i1 hm1, @List.getElem_map _ _ f l i2 hm2]
    exact heq
  exact h.getElem_inj_iff.mp hm

/-- Replacing an entry by one with the same `f`-image keeps the mapped list
duplicate-free. -/
theorem nodup_map_set {α β : Type} (f : α → β) (l : List α) (i : Nat) (v : α)
    (hi : i < l.length) (hf : f v = f l[i]) (h : (l.map f).Nodup) :
    ((l.set i v).map f).Nodup := by
  rw [List.map_set]
  have him : i < (l.map f).length := by simpa using hi
  have hv : (l.map f)[i] = f l[i] := @List.getElem_map _ _ f l i him
  rw [hf, ← hv, set_getElem_self_eq (l.map f) i him]
  exact h

/-- The allocation-state invariant is preserved by every `Step`. -/
theorem stateInv_preserved {s t : SimState} (hinv : StateInv s) (hstep : Step s t) :
    StateInv t := by
  obtain ⟨hpids, hrids, hnodups, hcons⟩ := hinv
  cases hstep with
  | acquire i j t2 h =>
    obtain ⟨p, r, hp, hr, hd, ht⟩ := solicitar_recurso_acquired_inv h
    subst ht
    obtain ⟨hi, hpi⟩ := List.getElem?_eq_some.mp hp
    obtain ⟨hj, hrj⟩ := List.getElem?_eq_some.mp hr
    have hfresh : r.id ∉ p.recursos_posse := by
      intro hmem
      have hco := hcons j hj i hi
      rw [hrj, hpi] at hco
      have h2 := hco.mpr hmem
      rw [hd] at h2
      exact Option.noConfusion h2
    refine ⟨?_, ?_, ?_, ?_⟩
    · exact nodup_map_set Processo.p_id s.processos i _ hi (by rw [hpi]) hpids
    · exact nodup_map_set Recurso.id s.recursos j _ hj (by rw [hrj]) hrids
    · intro q hq
      rcases List.mem_or_eq_of_mem_set hq with hq1 | hq1
      · exact hnodups q hq1
      · subst hq1
        show (p.recursos_posse ++ [r.id]).Nodup
        rw [List.nodup_append]
        refine ⟨hnodups p (hpi ▸ List.getElem_mem hi), List.nodup_singleton r.id, ?_⟩
        intro a ha hb
        rw [List.mem_singleton] at hb
        subst hb
        exact hfresh ha
    · intro j2 hj2 i2 hi2
      have hj2b : j2 < s.recursos.length := by simpa using hj2
      have hi2b : i2 < s.processos.length := by simpa using hi2
      have hrg : (s.recursos.set j { r with dono := some p.p_id })[j2]
          = if j = j2 then { r with dono := some p.p_id } else s.recursos[j2] :=
        List.getElem_set hj2
      have hpg : (s.processos.set i
            { p with recurso_aguardando := none,
                     recursos_posse := p.recursos_posse ++ [r.id] })[i2]
          = if i = i2 then
              { p with recurso_aguardando := none,
                       recursos_posse := p.recursos_posse ++ [r.id] }
            else s.processos[i2] :=
        List.getElem_set hi2
      show ((s.recursos.set j { r with dono := some p.p_id })[j2]).dono
          = some (((s.processos.set i
              { p with recurso_aguardando := none,
                       recursos_posse := p.recursos_posse ++ [r.id] })[i2]).p_id)
        ↔ ((s.recursos.set j { r with dono := some p.p_id })[j2]).id
          ∈ ((s.processos.set i
              { p with recurso_aguardando := none,
                       recursos_posse := p.recursos_posse ++ [r.id] })[i2]).recursos_posse
      rw [hrg, hpg]
      by_cases hjj : j = j2 <;> by_cases hii : i = i2
      · rw [if_pos hjj, if_pos hii]
        simp
      · rw [if_pos hjj, if_neg hii]
        have hpq : p.p_id ≠ (s.processos[i2]).p_id := by
          have := map_nodup_getElem_ne Processo.p_id s.processos hpids i i2 hi hi2b hii
          rw [hpi] at this
          exact this
        constructor
        · intro hx
          exact absurd (Option.some.inj hx) hpq
        · intro hx
          have hco := hcons j hj i2 hi2b
          rw [hrj] at hco
          have h2 := hco.mpr hx
          rw [hd] at h2
          exact Option.noConfusion h2
      · rw [if_neg hjj, if_pos hii]
        have hco := hcons j2 hj2b i hi
        rw [hpi] at hco
        have hne : (s.recursos[j2]).id ≠ r.id := by
          have := map_nodup_getElem_ne Recurso.id s.recursos hrids j2 j hj2b hj
            (fun hx => hjj hx.symm)
          rw [hrj] at this
          exact this
        constructor
        · intro hx
          exact List.mem_append_left _ (hco.mp hx)
        · intro hx
          rcases List.mem_append.mp hx with h1 | h1
          · exact hco.mpr h1
          · rw [List.mem_singleton] at h1
            exact absurd h1 hne
      · rw [if_neg hjj, if_neg hii]
        exact hcons j2 hj2b i2 hi2b
  | block i j t2 p r hp hr hsel h =>
    obtain ⟨p2, r2, hp2, hr2, hd2, ht⟩ := solicitar_recurso_blocked_inv h
    subst ht
    obtain ⟨hi, hpi⟩ := List.getElem?_eq_some.mp hp2
    refine ⟨?_, hrids, ?_, ?_⟩
    · exact nodup_map_set Processo.p_id s.processos i _ hi (by rw [hpi]) hpids
    · intro q hq
      rcases List.mem_or_eq_of_mem_set hq with hq1 | hq1
      · exact hnodups q hq1
      · subst hq1
        show p2.recursos_posse.Nodup
        exact hnodups p2 (hpi ▸ List.getElem_mem hi)
    · intro j2 hj2 i2 hi2
      have hi2b : i2 < s.processos.length := by simpa using hi2
      have hpg : (s.processos.set i { p2 with recurso_aguardando := some r2.id })[i2]
          = if i = i2 then { p2 with recurso_aguardando := some r2.id }
            else s.processos[i2] :=
        List.getElem_set hi2
      show (s.recursos[j2]).dono
          = some (((s.processos.set i
              { p2 with recurso_aguardando := some r2.id })[i2]).p_id)
        ↔ (s.recursos[j2]).id
          ∈ ((s.processos.set i
              { p2 with recurso_aguardando := some r2.id })[i2]).recursos_posse
      rw [hpg]
      by_cases hii : i = i2
      · rw [if_pos hii]
        have hco := hcons j2 hj2 i hi
        rw [hpi] at hco
        exact hco
      · rw [if_neg hii]
        exact hcons j2 hj2 i2 hi2b
  | release i j =>
    rcases liberar_recurso_agendado_fst_cases s i j with hcase | hcase
    · rw [hcase]
      exact ⟨hpids, hrids, hnodups, hcons⟩
    · obtain ⟨p, r, hp, hr, hheld, hres⟩ := hcase
      rw [hres]
      obtain ⟨hi, hpi⟩ := List.getElem?_eq_some.mp hp
      obtain ⟨hj, hrj⟩ := List.getElem?_eq_some.mp hr
      have hpnd : p.recursos_posse.Nodup := hnodups p (hpi ▸ List.getElem_mem hi)
      have hown : r.dono = some p.p_id := by
        have hco := hcons j hj i hi
        rw [hrj, hpi] at hco
        exact hco.mpr hheld
      refine ⟨?_, ?_, ?_, ?_⟩
      · exact nodup_map_set Processo.p_id s.processos i _ hi (by rw [hpi]) hpids
      · exact nodup_map_set Recurso.id s.recursos j _ hj (by rw [hrj]) hrids
      · intro q hq
        rcases List.mem_or_eq_of_mem_set hq with hq1 | hq1
        · exact hnodups q hq1
        · subst hq1
          show (p.recursos_posse.erase r.id).Nodup
          exact hpnd.erase r.id
      · intro j2 hj2 i2 hi2
        have hj2b : j2 < s.recursos.length := by simpa using hj2
        have hi2b : i2 < s.processos.length := by simpa using hi2
        have hrg : (s.recursos.set j { r with dono := none })[j2]
            = if j = j2 then { r with dono := none } else s.recursos[j2] :=
          List.getElem_set hj2
        have hpg : (s.processos.set i
              { p with recursos_posse := p.recursos_posse.erase r.id })[i2]
            = if i = i2 then { p with recursos_posse := p.recursos_posse.erase r.id }
              else s.processos[i2] :=
          List.getElem_set hi2
        show ((s.recursos.set j { r with dono := none })[j2]).dono
            = some (((s.processos.set i
                { p with recursos_posse := p.recursos_posse.erase r.id })[i2]).p_id)
          ↔ ((s.recursos.set j { r with dono := none })[j2]).id
            ∈ ((s.processos.set i
                { p with recursos_posse := p.recursos_posse.erase r.id })[i2]).recursos_posse
        rw [hrg, hpg]
        by_cases hjj : j = j2 <;> by_cases hii : i = i2
        · rw [if_pos hjj, if_pos hii]
          constructor
          · intro hx
            exact Option.noConfusion hx
          · intro hx
            exact absurd rfl (hpnd.mem_erase_iff.mp hx).1
        · rw [if_pos hjj, if_neg hii]
          constructor
          · intro hx
            exact Option.noConfusion hx
          · intro hx
            have hco := hcons j hj i2 hi2b
            rw [hrj] at hco
            have h2 := hco.mpr hx
            rw [hown] at h2
            have hpq : p.p_id ≠ (s.processos[i2]).p_id := by
              have := map_nodup_getElem_ne Processo.p_id s.processos hpids i i2 hi hi2b hii
              rw [hpi] at this
              exact this
            exact absurd (Option.some.inj h2) hpq
        · rw [if_neg hjj, if_pos hii]
          have hco := hcons j2 hj2b i hi
          rw [hpi] at hco
          have hne : (s.recursos[j2]).id ≠ r.id := by
            have := map_nodup_getElem_ne Recurso.id s.recursos hrids j2 j hj2b hj
              (fun hx => hjj hx.symm)
            rw [hrj] at this
            exact this
          rw [List.mem_erase_of_ne hne]
          exact hco
        · rw [if_neg hjj, if_neg hii]
          exact hcons j2 hj2b i2 hi2b

/-- Every state reachable from a start state satisfies the invariant. -/
theorem stateInv_reachable {init s : SimState} (h0 : InitOk init) (hr : Reachable init s) :
    StateInv s := by
  induction hr with
  | refl =>
    obtain ⟨hpids, hrids, hfresh, hfree⟩ := h0
    refine ⟨hpids, hrids, ?_, ?_⟩
    · intro p hp
      rw [(hfresh p hp).1]
      exact List.nodup_nil
    · intro j hj i hi
      rw [hfree _ (List.getElem_mem hj), (hfresh _ (List.getElem_mem hi)).1]
      constructor
      · intro hx
        exact Option.noConfusion hx
      · intro hx
        exact absurd hx (List.not_mem_nil _)
  | step s2 t2 h1 h2 ih => exact stateInv_preserved ih h2

/-! ## Claim C3: bidirectional ownership consistency -/

/-- C3: in every state reachable by the acquisition commit, the blocking step
and the scheduled release from a start state, a resource's `dono` names a
process exactly when that resource's id is in the process's held list, and no
resource is held by two distinct processes (at most one owner). -/
theorem ownership_bidirectional_consistency (init s : SimState)
    (h0 : InitOk init) (hr : Reachable init s) :
    (∀ r2 ∈ s.recursos, ∀ p2 ∈ s.processos,
      (r2.dono = some p2.p_id ↔ r2.id ∈ p2.recursos_posse)) ∧
    (∀ r2 ∈ s.recursos, ∀ p2 ∈ s.processos, ∀ q2 ∈ s.processos,
      r2.id ∈ p2.recursos_posse → r2.id ∈ q2.recursos_posse → p2 = q2) := by
  obtain ⟨hpids, hrids, hnodups, hcons⟩ := stateInv_reachable h0 hr
  constructor
  · intro r2 hr2 p2 hp2
    obtain ⟨j, hj, hjr⟩ := List.mem_iff_getElem.mp hr2
    obtain ⟨i, hi, hip⟩ := List.mem_iff_getElem.mp hp2
    have hco := hcons j hj i hi
    rw [hjr, hip] at hco
    exact hco
  · intro r2 hr2 p2 hp2 q2 hq2 hmp hmq
    obtain ⟨j, hj, hjr⟩ := List.mem_iff_getElem.mp hr2
    obtain ⟨i1, hi1, hip⟩ := List.mem_iff_getElem.mp hp2
    obtain ⟨i2, hi2, hiq⟩ := List.mem_iff_getElem.mp hq2
    have hc1 := hcons j hj i1 hi1
    have hc2 := hcons j hj i2 hi2
    rw [hjr, hip] at hc1
    rw [hjr, hiq] at hc2
    have e1 : r2.dono = some p2.p_id := hc1.mpr hmp
    have e2 : r2.dono = some q2.p_id := hc2.mpr hmq
    have epid : p2.p_id = q2.p_id := Option.some.inj (e1.symm.trans e2)
    by_cases hii : i1 = i2
    · subst hii
      rw [← hip, ← hiq]
    · exfalso
      have hne := map_nodup_getElem_ne Processo.p_id s.processos hpids i1 i2 hi1 hi2 hii
      rw [hip, hiq] at hne
      exact hne epid

/-- C3 witness: the consistency instance for the one resource and the one
process of a fresh one-process one-resource start state. -/
theorem ownership_bidirectional_consistency_witness :
    (({ id := 1, nome := "A", dono := none } : Recurso).dono
        = some ({ p_id := 1, delta_ts := 1, delta_tu := 1,
                  recursos_posse := [], recurso_aguardando := none } : Processo).p_id
      ↔ ({ id := 1, nome := "A", dono := none } : Recurso).id
        ∈ ({ p_id := 1, delta_ts := 1, delta_tu := 1,
             recursos_posse := [], recurso_aguardando := none } : Processo).recursos_posse) :=
  (ownership_bidirectional_consistency
      { processos := [{ p_id := 1, delta_ts := 1, delta_tu := 1,
                        recursos_posse := [], recurso_aguardando := none }],
        recursos := [{ id := 1, nome := "A", dono := none }] }
      { processos := [{ p_id := 1, delta_ts := 1, delta_tu := 1,
                        recursos_posse := [], recurso_aguardando := none }],
        recursos := [{ id := 1, nome := "A", dono := none }] }
      (by decide) Reachable.refl).1
    { id := 1, nome := "A", dono := none } (by decide)
    { p_id := 1, delta_ts := 1, delta_tu := 1,
      recursos_posse := [], recurso_aguardando := none } (by decide)

/-! ## Claim C6: no self-wait -/

/-- A process never waits on a resource it holds: this property is preserved
by every `Step` (the block step can only target a resource from the
`disponiveis_para_pedir` selection, which excludes the held list). -/
theorem no_self_wait_preserved {s t : SimState}
    (hinv : ∀ q ∈ s.processos, ∀ rid, q.recurso_aguardando = some rid → rid ∉ q.recursos_posse)
    (hstep : Step s t) :
    ∀ q ∈ t.processos, ∀ rid, q.recurso_aguardando = some rid → rid ∉ q.recursos_posse := by
  cases hstep with
  | acquire i j t2 h =>
    obtain ⟨p, r, hp, hr, hd, ht⟩ := solicitar_recurso_acquired_inv h
    subst ht
    intro q hq rid hrid
    rcases List.mem_or_eq_of_mem_set hq with hq1 | hq1
    · exact hinv q hq1 rid hrid
    · subst hq1
      exact Option.noConfusion hrid
  | block i j t2 p r hp hr hsel h =>
    obtain ⟨p2, r2, hp2, hr2, hd2, ht⟩ := solicitar_recurso_blocked_inv h
    subst ht
    have hpp : p2 = p := Option.some.inj (hp2.symm.trans hp)
    have hrr : r2 = r := Option.some.inj (hr2.symm.trans hr)
    intro q hq rid hrid
    rcases List.mem_or_eq_of_mem_set hq with hq1 | hq1
    · exact hinv q hq1 rid hrid
    · subst hq1
      have hridr : rid = r2.id := (Option.some.inj hrid).symm
      subst hridr
      show r2.id ∉ p2.recursos_posse
      rw [hrr, hpp]
      have hflt := (List.mem_filter.mp hsel).2
      rw [decide_eq_true_eq] at hflt
      exact hflt
  | release i j =>
    rcases liberar_recurso_agendado_fst_cases s i j with hcase | hcase
    · rw [hcase]
      exact hinv
    · obtain ⟨p, r, hp, hr, hheld, hres⟩ := hcase
      rw [hres]
      intro q hq rid hrid
      rcases List.mem_or_eq_of_mem_set hq with hq1 | hq1
      · exact hinv q hq1 rid hrid
      · subst hq1
        obtain ⟨hi, hpi⟩ := List.getElem?_eq_some.mp hp
        have hmem : p ∈ s.processos := hpi ▸ List.getElem_mem hi
        have hnot := hinv p hmem rid hrid
        intro hmem2
        exact hnot (List.erase_subset _ _ hmem2)

/-- C6: the request-selection candidate list excludes every held resource;
when the candidate list is empty the tick does nothing; and in every
reachable state no process's `recurso_aguardando` is a resource it holds. -/
theorem no_self_wait (init s : SimState) (p0 : Processo) (i k : Nat)
    (h0 : InitOk init) (hr : Reachable init s) :
    (∀ r2 ∈ disponiveis_para_pedir p0 s.recursos, r2.id ∉ p0.recursos_posse) ∧
    (∀ q, s.processos[i]? = some q → disponiveis_para_pedir q s.recursos = [] →
      run_tick s i k = s) ∧
    (∀ q ∈ s.processos, ∀ rid, q.recurso_aguardando = some rid →
      rid ∉ q.recursos_posse) := by
  refine ⟨?_, ?_, ?_⟩
  · intro r2 hr2
    have hflt := (List.mem_filter.mp hr2).2
    rw [decide_eq_true_eq] at hflt
    exact hflt
  · intro q hq hdisp
    simp [run_tick, hq, hdisp]
  · induction hr with
    | refl =>
      intro q hq rid hrid
      rw [(h0.2.2.1 q hq).2] at hrid
      exact Option.noConfusion hrid
    | step s2 t2 h1 h2 ih => exact no_self_wait_preserved ih h2

/-- C6 witness: with no resources configured, the candidate list is empty and
the tick is a no-op. -/
theorem no_self_wait_witness :
    run_tick { processos := [{ p_id := 1, delta_ts := 1, delta_tu := 1,
                               recursos_posse := [], recurso_aguardando := none }],
               recursos := [] } 0 0
      = { processos := [{ p_id := 1, delta_ts := 1, delta_tu := 1,
                          recursos_posse := [], recurso_aguardando := none }],
          recursos := [] } :=
  (no_self_wait
      { processos := [{ p_id := 1, delta_ts := 1, delta_tu := 1,
                        recursos_posse := [], recurso_aguardando := none }],
        recursos := [] }
      { processos := [{ p_id := 1, delta_ts := 1, delta_tu := 1,
                        recursos_posse := [], recurso_aguardando := none }],
        recursos := [] }
      { p_id := 1, delta_ts := 1, delta_tu := 1,
        recursos_posse := [], recurso_aguardando := none } 0 0
      (by decide) Reachable.refl).2.1
    { p_id := 1, delta_ts := 1, delta_tu := 1,
      recursos_posse := [], recurso_aguardando := none } rfl rfl

/-! ## Claim C9: idempotent snapshotting -/

/-- C9: the detector's snapshot depends only on the allocation state it
reads under the lock: the (id, owner) projection of the resources and the
(id, waiting) projection of the processes.  Two runs over states with equal
projections give identical graphs (nodes and edges), cycle lists and
deadlocked sets; in particular two consecutive runs with no intervening state
change report the same snapshot. -/
theorem detectar_deadlock_idempotente (ps1 ps2 : List Processo) (rs1 rs2 : List Recurso)
    (hp : ps1.map (fun p => (p.p_id, p.recurso_aguardando))
        = ps2.map (fun p => (p.p_id, p.recurso_aguardando)))
    (hr : rs1.map (fun r => (r.id, r.dono)) = rs2.map (fun r => (r.id, r.dono))) :
    detectar_deadlock ps1 rs1 = detectar_deadlock ps2 rs2 := by
  have hP : ps1.map (fun p => Node.P p.p_id) = ps2.map (fun p => Node.P p.p_id) := by
    have h := congrArg (List.map (fun pr : Nat × Option Nat => Node.P pr.1)) hp
    rw [List.map_map, List.map_map] at h
    exact h
  have hR : rs1.map (fun r => Node.R r.id) = rs2.map (fun r => Node.R r.id) := by
    have h := congrArg (List.map (fun pr : Nat × Option Nat => Node.R pr.1)) hr
    rw [List.map_map, List.map_map] at h
    exact h
  have hown : rs1.filterMap (fun r => r.dono.map (fun pid => (Node.R r.id, Node.P pid)))
      = rs2.filterMap (fun r => r.dono.map (fun pid => (Node.R r.id, Node.P pid))) := by
    have h := congrArg
      (List.filterMap (fun pr : Nat × Option Nat => pr.2.map (fun pid => (Node.R pr.1, Node.P pid)))) hr
    rw [List.filterMap_map, List.filterMap_map] at h
    exact h
  have hwait : ps1.filterMap (fun p => p.recurso_aguardando.map (fun rid => (Node.P p.p_id, Node.R rid)))
      = ps2.filterMap (fun p => p.recurso_aguardando.map (fun rid => (Node.P p.p_id, Node.R rid))) := by
    have h := congrArg
      (List.filterMap (fun pr : Nat × Option Nat => pr.2.map (fun rid => (Node.P pr.1, Node.R rid)))) hp
    rw [List.filterMap_map, List.filterMap_map] at h
    exact h
  unfold detectar_deadlock
  rw [hP, hR, hown, hwait]

/-- C9 witness: states differing only in display names and configured delays
(the fields the detector never reads) give identical snapshots. -/
theorem detectar_deadlock_idempotente_witness :
    detectar_deadlock
        [{ p_id := 1, delta_ts := 1, delta_tu := 1,
           recursos_posse := [1], recurso_aguardando := none }]
        [{ id := 1, nome := "A", dono := some 1 }]
      = detectar_deadlock
        [{ p_id := 1, delta_ts := 2, delta_tu := 3,
           recursos_posse := [1], recurso_aguardando := none }]
        [{ id := 1, nome := "B", dono := some 1 }] :=
  detectar_deadlock_idempotente
    [{ p_id := 1, delta_ts := 1, delta_tu := 1,
       recursos_posse := [1], recurso_aguardando := none }]
    [{ p_id := 1, delta_ts := 2, delta_tu := 3,
       recursos_posse := [1], recurso_aguardando := none }]
    [{ id := 1, nome := "A", dono := some 1 }]
    [{ id := 1, nome := "B", dono := some 1 }]
    rfl rfl
